import Mathlib

/-!
# Admin lease coordinator of the master server

A shallow embedding of `weed/server/master_grpc_server_admin.go`: the master
keeps one pair `(adminAccessLockTime, adminAccessSecret)` and serves
`LeaseAdminToken`, `ReleaseAdminToken` and `VerifyAdminToken` on it.

Conventions of the embedding

* `int64` values are integers; a request field is any integer, the range
  `-2^63 ≤ x < 2^63` is a hypothesis where a statement needs it.
* `time.Time` is the instant it denotes, counted in nanoseconds from the Unix
  epoch and not bounded; `UnixNano` wraps into `int64` as Go's arithmetic does.
  Wall and monotonic readings of the clock are taken to agree.
* The handlers are state passing: they take the server state and return the
  new state next to Go's `(resp, err)`.
* `time.Now()` and `rand.Int63()` are inputs of the handler that calls them.
  `LeaseAdminToken` reads the clock twice on its granting paths: once for the
  freshness test and once inside `generateToken`.
-/

namespace WeedServer

/-! ## The parts of Go's `time` package the file uses -/

/-- An instant: nanoseconds elapsed since January 1, 1970 UTC (negative before). -/
structure Time where
  ns : Int
deriving DecidableEq, Repr

/-- A duration in nanoseconds, as `time.Duration`. -/
abbrev Duration := Int

/-- One second, `time.Second`. -/
def Second : Duration := 1000000000

/-- The zero value of `time.Time`: January 1 of year 1, 00:00:00 UTC, which is
62135596800 seconds before the Unix epoch. -/
def Time.zeroValue : Time := ⟨-62135596800 * 1000000000⟩

/-- The instant `t + d`, `t.Add(d)`. -/
def Time.Add (t : Time) (d : Duration) : Time := ⟨t.ns + d⟩

/-- Whether `t` is strictly after `u`, `t.After(u)`. -/
def Time.After (t u : Time) : Bool := decide (u.ns < t.ns)

/-- Whether `t` and `u` are the same instant, `t.Equal(u)`. -/
def Time.Equal (t u : Time) : Bool := decide (t.ns = u.ns)

/-- Two's complement wrap of an integer into the `int64` range. -/
def wrapInt64 (x : Int) : Int := (x + 2 ^ 63) % 2 ^ 64 - 2 ^ 63

/-- Nanoseconds since the Unix epoch as an `int64`, `t.UnixNano()`. -/
def Time.UnixNano (t : Time) : Int := wrapInt64 t.ns

/-- The instant `sec` seconds and `nsec` nanoseconds after the Unix epoch,
`time.Unix(sec, nsec)`. -/
def Unix (sec nsec : Int) : Time := ⟨sec * 1000000000 + nsec⟩

/-- An integer that fits an `int64`. -/
def isInt64 (x : Int) : Prop := -2 ^ 63 ≤ x ∧ x < 2 ^ 63

instance (x : Int) : Decidable (isInt64 x) :=
  inferInstanceAs (Decidable (-2 ^ 63 ≤ x ∧ x < 2 ^ 63))

/-! ## Constants, state and messages -/

/-- The fixed length of a lease: `LockDuration = 10 * time.Second`. -/
def LockDuration : Duration := 10 * Second

/-- Modelled from the spec: the two fields of `MasterServer` this file reads and
writes (section 3, LockState); the struct itself is declared in another file. -/
@[ext]
structure MasterServer where
  adminAccessSecret : Int
  adminAccessLockTime : Time
deriving DecidableEq, Repr

/-- The state before any call: both fields hold Go's zero value. -/
def MasterServer.zeroValue : MasterServer := ⟨0, Time.zeroValue⟩

/-- Modelled from the spec: message `master_pb.LeaseAdminTokenRequest` (section 6),
fields as the handler reads them. -/
structure LeaseAdminTokenRequest where
  PreviousToken : Int
  PreviousLockTime : Int
deriving DecidableEq, Repr

/-- Modelled from the spec: message `master_pb.LeaseAdminTokenResponse` (section 6);
a new message has both fields zero. -/
@[ext]
structure LeaseAdminTokenResponse where
  Token : Int := 0
  LockTsNs : Int := 0
deriving DecidableEq, Repr

/-- Modelled from the spec: message `master_pb.ReleaseAdminTokenRequest` (section 6). -/
structure ReleaseAdminTokenRequest where
  PreviousToken : Int
  PreviousLockTime : Int
deriving DecidableEq, Repr

/-- Modelled from the spec: message `master_pb.ReleaseAdminTokenResponse` (section 6),
which carries nothing. -/
structure ReleaseAdminTokenResponse where
deriving DecidableEq, Repr

/-- Modelled from the spec: message `master_pb.VerifyAdminTokenRequest` (section 6). -/
structure VerifyAdminTokenRequest where
  Token : Int
  LockTime : Int
deriving DecidableEq, Repr

/-- Modelled from the spec: message `master_pb.VerifyAdminTokenResponse` (section 6);
a new message has `IsValid = false`. -/
structure VerifyAdminTokenResponse where
  IsValid : Bool := false
deriving DecidableEq, Repr

/-- The text of the only error the handlers build, `fmt.Errorf("already locked")`. -/
def alreadyLocked : String := "already locked"

/-- What a handler leaves behind: the server state after the call and Go's
`(resp, err)`, with `err = none` for `nil`. -/
structure Outcome (ρ : Type) where
  ms : MasterServer
  resp : ρ
  err : Option String

/-! ## The handlers -/

/-- The method `isValidToken`: the presented pair is the stored pair. -/
def MasterServer.isValidToken (ms : MasterServer) (ts : Time) (token : Int) : Bool :=
  ms.adminAccessLockTime.Equal ts && ms.adminAccessSecret == token

/-- The method `generateToken`: store the clock reading `now` and the generator
draw `r`, and return the stored pair. -/
def MasterServer.generateToken (ms : MasterServer) (now : Time) (r : Int) :
    MasterServer × Time × Int :=
  let ms1 : MasterServer := { ms with adminAccessLockTime := now }
  let ms2 : MasterServer := { ms1 with adminAccessSecret := r }
  (ms2, ms2.adminAccessLockTime, ms2.adminAccessSecret)

/-- The handler `LeaseAdminToken`. `now` is the clock reading of the freshness
test, `now2` the reading inside `generateToken`, `r` the draw of `rand.Int63()`. -/
def MasterServer.LeaseAdminToken (ms : MasterServer) (req : LeaseAdminTokenRequest)
    (now now2 : Time) (r : Int) : Outcome LeaseAdminTokenResponse :=
  let resp : LeaseAdminTokenResponse := {}
  if (ms.adminAccessLockTime.Add LockDuration).After now then
    if req.PreviousToken != 0
        && ms.isValidToken (Unix 0 req.PreviousLockTime) req.PreviousToken then
      -- for renew
      let (ms', ts, token) := ms.generateToken now2 r
      ⟨ms', { resp with Token := token, LockTsNs := ts.UnixNano }, none⟩
    else
      -- refuse since still locked
      ⟨ms, resp, some alreadyLocked⟩
  else
    -- for fresh lease request
    let (ms', ts, token) := ms.generateToken now2 r
    ⟨ms', { resp with Token := token, LockTsNs := ts.UnixNano }, none⟩

/-- The handler `ReleaseAdminToken`. -/
def MasterServer.ReleaseAdminToken (ms : MasterServer) (req : ReleaseAdminTokenRequest) :
    Outcome ReleaseAdminTokenResponse :=
  let resp : ReleaseAdminTokenResponse := {}
  if ms.isValidToken (Unix 0 req.PreviousLockTime) req.PreviousToken then
    ⟨{ ms with adminAccessSecret := 0 }, resp, none⟩
  else
    ⟨ms, resp, none⟩

/-- The handler `VerifyAdminToken`. -/
def MasterServer.VerifyAdminToken (ms : MasterServer) (req : VerifyAdminTokenRequest) :
    Outcome VerifyAdminTokenResponse :=
  let resp : VerifyAdminTokenResponse := {}
  if ms.isValidToken (Unix 0 req.LockTime) req.Token then
    ⟨ms, { resp with IsValid := true }, none⟩
  else
    ⟨ms, resp, none⟩

/-! ## Vocabulary of the statements -/

/-- The lease is live at `now`: the freshness test of `LeaseAdminToken`,
`now < adminAccessLockTime + LockDuration`. -/
def MasterServer.live (ms : MasterServer) (now : Time) : Prop :=
  now.ns < ms.adminAccessLockTime.ns + LockDuration

instance (ms : MasterServer) (now : Time) : Decidable (ms.live now) :=
  inferInstanceAs (Decidable (now.ns < ms.adminAccessLockTime.ns + LockDuration))

/-- The request presents the stored pair: its lock time, read as nanoseconds
since the epoch, is the stored instant and its token is the stored secret. -/
def MasterServer.presents (ms : MasterServer) (lockTime token : Int) : Prop :=
  Unix 0 lockTime = ms.adminAccessLockTime ∧ token = ms.adminAccessSecret

instance (ms : MasterServer) (lockTime token : Int) :
    Decidable (ms.presents lockTime token) :=
  inferInstanceAs
    (Decidable (Unix 0 lockTime = ms.adminAccessLockTime ∧ token = ms.adminAccessSecret))

/-- One call of a sequential trace, with the inputs it consumes. -/
inductive Call where
  | lease (req : LeaseAdminTokenRequest) (now now2 : Time) (r : Int)
  | release (req : ReleaseAdminTokenRequest)
  | verify (req : VerifyAdminTokenRequest)

/-- The server state after one call. -/
def Call.next (ms : MasterServer) : Call → MasterServer
  | .lease req now now2 r => (ms.LeaseAdminToken req now now2 r).ms
  | .release req => (ms.ReleaseAdminToken req).ms
  | .verify req => (ms.VerifyAdminToken req).ms

/-- The call is a `LeaseAdminToken` that returns without error. -/
def Call.granted (ms : MasterServer) : Call → Bool
  | .lease req now now2 r => (ms.LeaseAdminToken req now now2 r).err == none
  | .release _ => false
  | .verify _ => false

/-- The server state after a sequence of calls, run in order. -/
def run (ms : MasterServer) : List Call → MasterServer
  | [] => ms
  | c :: cs => run (c.next ms) cs

/-- No call of the sequence, run in order from `ms`, is a granted lease. -/
def noneGranted (ms : MasterServer) : List Call → Bool
  | [] => true
  | c :: cs => !c.granted ms && noneGranted (c.next ms) cs

/-- A `LeaseAdminToken` call of the trace runs its freshness test before
`deadline` (nanoseconds since the epoch); other calls read no clock. -/
def Call.leaseBefore (deadline : Int) : Call → Bool
  | .lease _ now _ _ => decide (now.ns < deadline)
  | .release _ => true
  | .verify _ => true

/-! ## Basic facts -/

theorem isValidToken_iff (ms : MasterServer) (ts : Time) (token : Int) :
    ms.isValidToken ts token = true ↔ ms.adminAccessLockTime = ts ∧ ms.adminAccessSecret = token := by
  cases ms with
  | mk s t =>
    cases t with
    | mk a =>
      cases ts with
      | mk b => simp [MasterServer.isValidToken, Time.Equal]

theorem after_add_iff (ms : MasterServer) (now : Time) :
    (ms.adminAccessLockTime.Add LockDuration).After now = true ↔ ms.live now := by
  simp [Time.After, Time.Add, MasterServer.live]

theorem lease_of_renew (ms : MasterServer) (req : LeaseAdminTokenRequest) (now now2 : Time)
    (r : Int) (hlive : ms.live now) (htok : req.PreviousToken ≠ 0)
    (hpair : ms.presents req.PreviousLockTime req.PreviousToken) :
    ms.LeaseAdminToken req now now2 r = ⟨⟨r, now2⟩, ⟨r, now2.UnixNano⟩, none⟩ := by
  have hv : ms.isValidToken (Unix 0 req.PreviousLockTime) req.PreviousToken = true :=
    (isValidToken_iff ms _ _).2 ⟨hpair.1.symm, hpair.2.symm⟩
  have ha := (after_add_iff ms now).2 hlive
  simp [MasterServer.LeaseAdminToken, MasterServer.generateToken, ha, hv, htok]

theorem lease_of_refuse (ms : MasterServer) (req : LeaseAdminTokenRequest) (now now2 : Time)
    (r : Int) (hlive : ms.live now)
    (hno : ¬ (req.PreviousToken ≠ 0 ∧ ms.presents req.PreviousLockTime req.PreviousToken)) :
    ms.LeaseAdminToken req now now2 r = ⟨ms, ⟨0, 0⟩, some alreadyLocked⟩ := by
  have ha := (after_add_iff ms now).2 hlive
  by_cases htok : req.PreviousToken = 0
  · simp [MasterServer.LeaseAdminToken, ha, htok]
  · have hv : ¬ ms.isValidToken (Unix 0 req.PreviousLockTime) req.PreviousToken = true := by
      intro hv
      have h := (isValidToken_iff ms _ _).1 hv
      exact hno ⟨htok, h.1.symm, h.2.symm⟩
    simp [MasterServer.LeaseAdminToken, ha, hv]

theorem lease_of_expired (ms : MasterServer) (req : LeaseAdminTokenRequest) (now now2 : Time)
    (r : Int) (hdead : ¬ ms.live now) :
    ms.LeaseAdminToken req now now2 r = ⟨⟨r, now2⟩, ⟨r, now2.UnixNano⟩, none⟩ := by
  have ha : ¬ (ms.adminAccessLockTime.Add LockDuration).After now = true :=
    fun h => hdead ((after_add_iff ms now).1 h)
  simp [MasterServer.LeaseAdminToken, MasterServer.generateToken, ha]

/-- The three ways a call of `LeaseAdminToken` can end. -/
theorem lease_cases (ms : MasterServer) (req : LeaseAdminTokenRequest) (now now2 : Time)
    (r : Int) :
    (ms.LeaseAdminToken req now now2 r = ⟨⟨r, now2⟩, ⟨r, now2.UnixNano⟩, none⟩
        ∧ (ms.live now → req.PreviousToken ≠ 0
              ∧ ms.presents req.PreviousLockTime req.PreviousToken))
      ∨ (ms.LeaseAdminToken req now now2 r = ⟨ms, ⟨0, 0⟩, some alreadyLocked⟩
        ∧ ms.live now
        ∧ ¬ (req.PreviousToken ≠ 0 ∧ ms.presents req.PreviousLockTime req.PreviousToken)) := by
  by_cases hlive : ms.live now
  · by_cases hp : req.PreviousToken ≠ 0 ∧ ms.presents req.PreviousLockTime req.PreviousToken
    · exact Or.inl ⟨lease_of_renew ms req now now2 r hlive hp.1 hp.2, fun _ => hp⟩
    · exact Or.inr ⟨lease_of_refuse ms req now now2 r hlive hp, hlive, hp⟩
  · exact Or.inl ⟨lease_of_expired ms req now now2 r hlive, fun h => absurd h hlive⟩

theorem wrapInt64_of_isInt64 (x : Int) (h : isInt64 x) : wrapInt64 x = x := by
  unfold isInt64 at h
  unfold wrapInt64
  omega

theorem release_eq (ms : MasterServer) (req : ReleaseAdminTokenRequest) :
    ms.ReleaseAdminToken req =
      if ms.presents req.PreviousLockTime req.PreviousToken then
        ⟨⟨0, ms.adminAccessLockTime⟩, ⟨⟩, none⟩
      else ⟨ms, ⟨⟩, none⟩ := by
  by_cases hp : ms.presents req.PreviousLockTime req.PreviousToken
  · have hv : ms.isValidToken (Unix 0 req.PreviousLockTime) req.PreviousToken = true :=
      (isValidToken_iff ms _ _).2 ⟨hp.1.symm, hp.2.symm⟩
    simp [MasterServer.ReleaseAdminToken, hv, hp]
  · have hv : ¬ ms.isValidToken (Unix 0 req.PreviousLockTime) req.PreviousToken = true := by
      intro hv
      have h := (isValidToken_iff ms _ _).1 hv
      exact hp ⟨h.1.symm, h.2.symm⟩
    simp [MasterServer.ReleaseAdminToken, hv, hp]

theorem verify_eq (ms : MasterServer) (req : VerifyAdminTokenRequest) :
    ms.VerifyAdminToken req =
      ⟨ms, ⟨decide (ms.presents req.LockTime req.Token)⟩, none⟩ := by
  by_cases hp : ms.presents req.LockTime req.Token
  · have hv : ms.isValidToken (Unix 0 req.LockTime) req.Token = true :=
      (isValidToken_iff ms _ _).2 ⟨hp.1.symm, hp.2.symm⟩
    simp [MasterServer.VerifyAdminToken, hv, hp]
  · have hv : ¬ ms.isValidToken (Unix 0 req.LockTime) req.Token = true := by
      intro hv
      have h := (isValidToken_iff ms _ _).1 hv
      exact hp ⟨h.1.symm, h.2.symm⟩
    simp [MasterServer.VerifyAdminToken, hv, hp]

/-- A state whose secret is the cleared value refuses every lease request while
its lock time is fresh. -/
theorem lease_cleared_refused (t : Time) (req : LeaseAdminTokenRequest) (now now2 : Time)
    (r : Int) (hlive : now.ns < t.ns + LockDuration) :
    (⟨0, t⟩ : MasterServer).LeaseAdminToken req now now2 r
      = ⟨⟨0, t⟩, ⟨0, 0⟩, some alreadyLocked⟩ := by
  have hl : (⟨0, t⟩ : MasterServer).live now := hlive
  apply lease_of_refuse ⟨0, t⟩ req now now2 r hl
  rintro ⟨htok, _, hsec⟩
  exact htok hsec

/-- A call that runs in the window on a cleared state is no granted lease and
leaves the state as it is. -/
theorem next_cleared (t : Time) (c : Call)
    (hc : c.leaseBefore (t.ns + LockDuration) = true) :
    c.next ⟨0, t⟩ = ⟨0, t⟩ ∧ c.granted ⟨0, t⟩ = false := by
  cases c with
  | lease req now now2 r =>
    have hlive : now.ns < t.ns + LockDuration := by simpa [Call.leaseBefore] using hc
    simp [Call.next, Call.granted, lease_cleared_refused t req now now2 r hlive]
  | release req =>
    refine ⟨?_, rfl⟩
    simp only [Call.next]
    rw [release_eq]
    split <;> rfl
  | verify req =>
    refine ⟨?_, rfl⟩
    simp only [Call.next]
    rw [verify_eq]

theorem run_cleared (t : Time) (cs : List Call)
    (hcs : ∀ c ∈ cs, c.leaseBefore (t.ns + LockDuration) = true) :
    run ⟨0, t⟩ cs = ⟨0, t⟩ ∧ noneGranted ⟨0, t⟩ cs = true := by
  induction cs with
  | nil => exact ⟨rfl, rfl⟩
  | cons c cs ih =>
    have hc := next_cleared t c (hcs c (List.mem_cons_self c cs))
    have ih' := ih (fun d hd => hcs d (List.mem_cons_of_mem c hd))
    simp [run, noneGranted, hc.1, hc.2, ih'.1, ih'.2]

/-- A call that is no granted lease keeps the lock time, and keeps the secret or
clears it. -/
theorem next_of_not_granted (ms : MasterServer) (c : Call) (hc : c.granted ms = false) :
    (c.next ms).adminAccessLockTime = ms.adminAccessLockTime
      ∧ ((c.next ms).adminAccessSecret = ms.adminAccessSecret
          ∨ (c.next ms).adminAccessSecret = 0) := by
  cases c with
  | lease req now now2 r =>
    rcases lease_cases ms req now now2 r with ⟨h, _⟩ | ⟨h, _⟩
    · simp [Call.granted, h] at hc
    · simp [Call.next, h]
  | release req =>
    simp only [Call.next]
    rw [release_eq]
    split
    · exact ⟨rfl, Or.inr rfl⟩
    · exact ⟨rfl, Or.inl rfl⟩
  | verify req =>
    simp only [Call.next]
    rw [verify_eq]
    exact ⟨rfl, Or.inl rfl⟩

theorem run_of_noneGranted (cs : List Call) :
    ∀ ms : MasterServer, noneGranted ms cs = true →
      (run ms cs).adminAccessLockTime = ms.adminAccessLockTime
        ∧ ((run ms cs).adminAccessSecret = ms.adminAccessSecret
            ∨ (run ms cs).adminAccessSecret = 0) := by
  induction cs with
  | nil => exact fun ms _ => ⟨rfl, Or.inl rfl⟩
  | cons c cs ih =>
    intro ms h
    simp only [noneGranted, Bool.and_eq_true, Bool.not_eq_true'] at h
    have h1 := next_of_not_granted ms c h.1
    have h2 := ih (c.next ms) h.2
    refine ⟨by simp only [run]; rw [h2.1, h1.1], ?_⟩
    simp only [run]
    rcases h2.2 with e | e
    · rcases h1.2 with e1 | e1
      · exact Or.inl (e.trans e1)
      · exact Or.inr (e.trans e1)
    · exact Or.inr e

/-! ## The lease handler while the lease is live, and after it has expired -/

/-- C2: while the lease is live at the clock reading of the freshness test,
`LeaseAdminToken` returns without error if and only if the request has
`PreviousToken != 0` and presents exactly the stored pair; every other request
gets the error "already locked". -/
theorem lease_live_granted_iff (ms : MasterServer) (req : LeaseAdminTokenRequest)
    (now now2 : Time) (r : Int) (hlive : ms.live now) :
    ((ms.LeaseAdminToken req now now2 r).err = none
        ↔ req.PreviousToken ≠ 0 ∧ ms.presents req.PreviousLockTime req.PreviousToken)
      ∧ (¬ (req.PreviousToken ≠ 0 ∧ ms.presents req.PreviousLockTime req.PreviousToken)
          → (ms.LeaseAdminToken req now now2 r).err = some alreadyLocked) := by
  refine ⟨⟨fun h => ?_, fun h => ?_⟩, fun h => ?_⟩
  · by_contra hno
    rw [lease_of_refuse ms req now now2 r hlive hno] at h
    simp at h
  · rw [lease_of_renew ms req now now2 r hlive h.1 h.2]
  · rw [lease_of_refuse ms req now now2 r hlive h]

/-- Witness of C2: the holder of `(0 ns, 7)` renews at 5 s, and a caller without a
token is refused at the same instant. -/
theorem lease_live_granted_iff_witness :
    (⟨7, ⟨0⟩⟩ : MasterServer).live ⟨5000000000⟩
      ∧ (((⟨7, ⟨0⟩⟩ : MasterServer).LeaseAdminToken ⟨7, 0⟩ ⟨5000000000⟩ ⟨5000000001⟩ 9).err = none
            ↔ (7 : Int) ≠ 0 ∧ (⟨7, ⟨0⟩⟩ : MasterServer).presents 0 7)
      ∧ (((⟨7, ⟨0⟩⟩ : MasterServer).LeaseAdminToken ⟨0, 0⟩ ⟨5000000000⟩ ⟨5000000001⟩ 9).err
            = some alreadyLocked) :=
  ⟨by decide,
    (lease_live_granted_iff ⟨7, ⟨0⟩⟩ ⟨7, 0⟩ ⟨5000000000⟩ ⟨5000000001⟩ 9 (by decide)).1,
    (lease_live_granted_iff ⟨7, ⟨0⟩⟩ ⟨0, 0⟩ ⟨5000000000⟩ ⟨5000000001⟩ 9 (by decide)).2
      (by decide)⟩

/-- C4: once the freshness test reads a clock at or past
`adminAccessLockTime + LockDuration` (the boundary instant included),
`LeaseAdminToken` returns without error for every request and overwrites the
state with the pair `generateToken` builds. -/
theorem lease_expired_granted (ms : MasterServer) (req : LeaseAdminTokenRequest)
    (now now2 : Time) (r : Int)
    (hexp : ms.adminAccessLockTime.ns + LockDuration ≤ now.ns) :
    (ms.LeaseAdminToken req now now2 r).err = none
      ∧ (ms.LeaseAdminToken req now now2 r).ms = ⟨r, now2⟩
      ∧ (ms.LeaseAdminToken req now now2 r).resp = ⟨r, now2.UnixNano⟩ := by
  have hdead : ¬ ms.live now := by
    unfold MasterServer.live
    omega
  rw [lease_of_expired ms req now now2 r hdead]
  exact ⟨rfl, rfl, rfl⟩

/-- Witness of C4: at the boundary instant 10 s after the stored lock time a
request with a stale pair is granted. -/
theorem lease_expired_granted_witness :
    (⟨7, ⟨0⟩⟩ : MasterServer).adminAccessLockTime.ns + LockDuration ≤ (⟨10000000000⟩ : Time).ns
      ∧ ((⟨7, ⟨0⟩⟩ : MasterServer).LeaseAdminToken ⟨3, 4⟩ ⟨10000000000⟩ ⟨10000000002⟩ 9).err = none
      ∧ ((⟨7, ⟨0⟩⟩ : MasterServer).LeaseAdminToken ⟨3, 4⟩ ⟨10000000000⟩ ⟨10000000002⟩ 9).ms
          = ⟨9, ⟨10000000002⟩⟩
      ∧ ((⟨7, ⟨0⟩⟩ : MasterServer).LeaseAdminToken ⟨3, 4⟩ ⟨10000000000⟩ ⟨10000000002⟩ 9).resp
          = ⟨9, (⟨10000000002⟩ : Time).UnixNano⟩ :=
  ⟨by decide,
    lease_expired_granted ⟨7, ⟨0⟩⟩ ⟨3, 4⟩ ⟨10000000000⟩ ⟨10000000002⟩ 9 (by decide)⟩

/-- C6: whenever `LeaseAdminToken` returns an error, the error is
"already locked", the stored pair is exactly what it was before the call, and
the response has `Token = 0` and `LockTsNs = 0`. -/
theorem lease_refused_unchanged (ms : MasterServer) (req : LeaseAdminTokenRequest)
    (now now2 : Time) (r : Int)
    (herr : (ms.LeaseAdminToken req now now2 r).err ≠ none) :
    (ms.LeaseAdminToken req now now2 r).err = some alreadyLocked
      ∧ (ms.LeaseAdminToken req now now2 r).ms = ms
      ∧ (ms.LeaseAdminToken req now now2 r).resp.Token = 0
      ∧ (ms.LeaseAdminToken req now now2 r).resp.LockTsNs = 0 := by
  rcases lease_cases ms req now now2 r with ⟨h, _⟩ | ⟨h, _⟩
  · rw [h] at herr
    simp at herr
  · rw [h]
    exact ⟨rfl, rfl, rfl, rfl⟩

/-- Witness of C6: a wrong token presented against `(0 ns, 7)` at 5 s. -/
theorem lease_refused_unchanged_witness :
    ((⟨7, ⟨0⟩⟩ : MasterServer).LeaseAdminToken ⟨8, 0⟩ ⟨5000000000⟩ ⟨5000000001⟩ 9).err ≠ none
      ∧ ((⟨7, ⟨0⟩⟩ : MasterServer).LeaseAdminToken ⟨8, 0⟩ ⟨5000000000⟩ ⟨5000000001⟩ 9).err
          = some alreadyLocked
      ∧ ((⟨7, ⟨0⟩⟩ : MasterServer).LeaseAdminToken ⟨8, 0⟩ ⟨5000000000⟩ ⟨5000000001⟩ 9).ms
          = ⟨7, ⟨0⟩⟩
      ∧ ((⟨7, ⟨0⟩⟩ : MasterServer).LeaseAdminToken ⟨8, 0⟩ ⟨5000000000⟩ ⟨5000000001⟩ 9).resp.Token
          = 0
      ∧ ((⟨7, ⟨0⟩⟩ : MasterServer).LeaseAdminToken ⟨8, 0⟩ ⟨5000000000⟩ ⟨5000000001⟩ 9).resp.LockTsNs
          = 0 :=
  ⟨by decide,
    lease_refused_unchanged ⟨7, ⟨0⟩⟩ ⟨8, 0⟩ ⟨5000000000⟩ ⟨5000000001⟩ 9 (by decide)⟩

/-! ## Verification and release -/

/-- C7: for every state and request, `VerifyAdminToken` answers `IsValid = true`
if and only if `req.LockTime`, read as nanoseconds since the epoch, is the stored
`adminAccessLockTime` and `req.Token` is the stored `adminAccessSecret`. The
handler takes no clock reading and the condition mentions none, so the answer
is the same whether the lease is live or not. -/
theorem verify_valid_iff (ms : MasterServer) (req : VerifyAdminTokenRequest) :
    (ms.VerifyAdminToken req).resp.IsValid = true
      ↔ Unix 0 req.LockTime = ms.adminAccessLockTime ∧ req.Token = ms.adminAccessSecret := by
  rw [verify_eq]
  simp [MasterServer.presents]

/-- C8: `ReleaseAdminToken` never returns an error; when the request presents
exactly the stored pair the new state has `adminAccessSecret = 0` and the old
`adminAccessLockTime`; when it does not, the state is the one before the call. -/
theorem release_semantics (ms : MasterServer) (req : ReleaseAdminTokenRequest) :
    (ms.ReleaseAdminToken req).err = none
      ∧ (ms.presents req.PreviousLockTime req.PreviousToken →
          (ms.ReleaseAdminToken req).ms.adminAccessSecret = 0
          ∧ (ms.ReleaseAdminToken req).ms.adminAccessLockTime = ms.adminAccessLockTime)
      ∧ (¬ ms.presents req.PreviousLockTime req.PreviousToken →
          (ms.ReleaseAdminToken req).ms = ms) := by
  rw [release_eq]
  by_cases hp : ms.presents req.PreviousLockTime req.PreviousToken
  · simp [hp]
  · simp [hp]

/-- C9, as amended: on a state whose stored pair is `(t0, s0)` with `s0` not
zero, after the matching `ReleaseAdminToken(PreviousToken = s0,
PreviousLockTime = t0)` a `VerifyAdminToken` with `Token = s0` and
`LockTime = t0` answers `IsValid = false`. -/
theorem verify_after_release (ms : MasterServer) (t0 s0 : Int)
    (hpair : ms.presents t0 s0) (hs : s0 ≠ 0) :
    (((ms.ReleaseAdminToken ⟨s0, t0⟩).ms).VerifyAdminToken ⟨s0, t0⟩).resp.IsValid = false := by
  have hrel : (ms.ReleaseAdminToken ⟨s0, t0⟩).ms = ⟨0, ms.adminAccessLockTime⟩ := by
    rw [release_eq]
    simp [hpair]
  rw [hrel, verify_eq]
  simp [MasterServer.presents, hs]

/-- Witness of C9 as amended: the pair `(1 s, 7)` is released, then checked. -/
theorem verify_after_release_witness :
    (⟨7, ⟨1000000000⟩⟩ : MasterServer).presents 1000000000 7 ∧ (7 : Int) ≠ 0
      ∧ ((((⟨7, ⟨1000000000⟩⟩ : MasterServer).ReleaseAdminToken ⟨7, 1000000000⟩).ms).VerifyAdminToken
            ⟨7, 1000000000⟩).resp.IsValid = false :=
  ⟨by decide, by decide,
    verify_after_release ⟨7, ⟨1000000000⟩⟩ 1000000000 7 (by decide) (by decide)⟩

/-- Counterexample to C9 as stated: a lease is granted at 1 s with the secret 7
and released, which leaves the stored pair `(1 s, 0)`; the matching release of
that pair followed by a verification with the same pair answers
`IsValid = true`. -/
theorem verify_after_release_of_zero_secret :
    ((MasterServer.zeroValue.LeaseAdminToken ⟨0, 0⟩ ⟨1000000000⟩ ⟨1000000000⟩ 7).ms.ReleaseAdminToken
        ⟨7, 1000000000⟩).ms = ⟨0, ⟨1000000000⟩⟩
      ∧ (⟨0, ⟨1000000000⟩⟩ : MasterServer).presents 1000000000 0
      ∧ ((((⟨0, ⟨1000000000⟩⟩ : MasterServer).ReleaseAdminToken ⟨0, 1000000000⟩).ms).VerifyAdminToken
            ⟨0, 1000000000⟩).resp.IsValid = true := by
  decide

/-! ## Renewal -/

/-- C10: after a `ReleaseAdminToken` that presents the stored pair of a state
with lock time `t0`, the state is `(t0, 0)` and stays so through every sequence
of calls whose lease requests all run before `t0 + LockDuration`, none of which
is granted; a `LeaseAdminToken` whose freshness test reads
`now < t0 + LockDuration` fails with "already locked" and leaves the state
unchanged whatever pair it presents, and one with `now ≥ t0 + LockDuration` is
granted. -/
theorem release_locks_out (ms : MasterServer) (rel : ReleaseAdminTokenRequest)
    (hrel : ms.presents rel.PreviousLockTime rel.PreviousToken)
    (cs : List Call)
    (hcs : ∀ c ∈ cs, c.leaseBefore (ms.adminAccessLockTime.ns + LockDuration) = true)
    (req : LeaseAdminTokenRequest) (now now2 : Time) (r : Int) :
    (ms.ReleaseAdminToken rel).ms = ⟨0, ms.adminAccessLockTime⟩
      ∧ run (ms.ReleaseAdminToken rel).ms cs = (ms.ReleaseAdminToken rel).ms
      ∧ noneGranted (ms.ReleaseAdminToken rel).ms cs = true
      ∧ (now.ns < ms.adminAccessLockTime.ns + LockDuration →
          ((run (ms.ReleaseAdminToken rel).ms cs).LeaseAdminToken req now now2 r).err
              = some alreadyLocked
            ∧ ((run (ms.ReleaseAdminToken rel).ms cs).LeaseAdminToken req now now2 r).ms
              = (ms.ReleaseAdminToken rel).ms)
      ∧ (ms.adminAccessLockTime.ns + LockDuration ≤ now.ns →
          ((run (ms.ReleaseAdminToken rel).ms cs).LeaseAdminToken req now now2 r).err = none) := by
  have h1 : (ms.ReleaseAdminToken rel).ms = ⟨0, ms.adminAccessLockTime⟩ := by
    rw [release_eq]
    simp [hrel]
  have h2 := run_cleared ms.adminAccessLockTime cs hcs
  rw [h1, h2.1]
  refine ⟨rfl, rfl, h2.2, fun hlive => ?_, fun hexp => ?_⟩
  · rw [lease_cleared_refused ms.adminAccessLockTime req now now2 r hlive]
    exact ⟨rfl, rfl⟩
  · have hdead : ¬ (⟨0, ms.adminAccessLockTime⟩ : MasterServer).live now := by
      unfold MasterServer.live
      simp only
      omega
    rw [lease_of_expired _ req now now2 r hdead]

/-- Witness of C10: the pair `(1 s, 7)` is released; a request without token at
2 s and one with the released pair at 3 s are refused, the next one at 4 s is
refused as well, and the request at 11 s is granted. -/
theorem release_locks_out_witness :
    (⟨7, ⟨1000000000⟩⟩ : MasterServer).presents 1000000000 7
      ∧ ((run ((⟨7, ⟨1000000000⟩⟩ : MasterServer).ReleaseAdminToken ⟨7, 1000000000⟩).ms
            [Call.lease ⟨0, 0⟩ ⟨2000000000⟩ ⟨2000000000⟩ 8,
              Call.lease ⟨7, 1000000000⟩ ⟨3000000000⟩ ⟨3000000000⟩ 9]).LeaseAdminToken
            ⟨0, 1000000000⟩ ⟨4000000000⟩ ⟨4000000000⟩ 5).err = some alreadyLocked
      ∧ ((run ((⟨7, ⟨1000000000⟩⟩ : MasterServer).ReleaseAdminToken ⟨7, 1000000000⟩).ms
            [Call.lease ⟨0, 0⟩ ⟨2000000000⟩ ⟨2000000000⟩ 8,
              Call.lease ⟨7, 1000000000⟩ ⟨3000000000⟩ ⟨3000000000⟩ 9]).LeaseAdminToken
            ⟨0, 0⟩ ⟨11000000000⟩ ⟨11000000000⟩ 5).err = none :=
  ⟨by decide,
    ((release_locks_out ⟨7, ⟨1000000000⟩⟩ ⟨7, 1000000000⟩ (by decide)
      [Call.lease ⟨0, 0⟩ ⟨2000000000⟩ ⟨2000000000⟩ 8,
        Call.lease ⟨7, 1000000000⟩ ⟨3000000000⟩ ⟨3000000000⟩ 9]
      (by decide) ⟨0, 1000000000⟩ ⟨4000000000⟩ ⟨4000000000⟩ 5).2.2.2.1 (by decide)).1,
    (release_locks_out ⟨7, ⟨1000000000⟩⟩ ⟨7, 1000000000⟩ (by decide)
      [Call.lease ⟨0, 0⟩ ⟨2000000000⟩ ⟨2000000000⟩ 8,
        Call.lease ⟨7, 1000000000⟩ ⟨3000000000⟩ ⟨3000000000⟩ 9]
      (by decide) ⟨0, 0⟩ ⟨11000000000⟩ ⟨11000000000⟩ 5).2.2.2.2 (by decide)⟩

/-- C1: in every sequence of calls started from any state `ms0`, if a
`LeaseAdminToken` call is granted and stores `(t1, s1)`, no lease is granted in
the calls `mid` that follow, and the next granted `LeaseAdminToken` runs its
freshness test at `t2 < t1 + LockDuration`, then the stored pair is still
`(t1, s1)` when that call arrives and the call presented exactly
`PreviousLockTime = t1` and `PreviousToken = s1`, a non-zero token: it is a
renewal by the holder, and no call that presents another pair is granted while
the lease is live. -/
theorem lease_mutual_exclusion (ms0 : MasterServer) (pre : List Call)
    (req1 : LeaseAdminTokenRequest) (now1 t1 : Time) (s1 : Int) (mid : List Call)
    (req2 : LeaseAdminTokenRequest) (t2 now2 : Time) (r2 : Int)
    (hfirst : ((run ms0 pre).LeaseAdminToken req1 now1 t1 s1).err = none)
    (hmid : noneGranted ((run ms0 pre).LeaseAdminToken req1 now1 t1 s1).ms mid = true)
    (hsecond : ((run ((run ms0 pre).LeaseAdminToken req1 now1 t1 s1).ms mid).LeaseAdminToken
        req2 t2 now2 r2).err = none)
    (hlive : t2.ns < t1.ns + LockDuration) :
    ((run ms0 pre).LeaseAdminToken req1 now1 t1 s1).ms = ⟨s1, t1⟩
      ∧ run ((run ms0 pre).LeaseAdminToken req1 now1 t1 s1).ms mid = ⟨s1, t1⟩
      ∧ Unix 0 req2.PreviousLockTime = t1
      ∧ req2.PreviousToken = s1
      ∧ req2.PreviousToken ≠ 0 := by
  have hst : ((run ms0 pre).LeaseAdminToken req1 now1 t1 s1).ms = ⟨s1, t1⟩ := by
    rcases lease_cases (run ms0 pre) req1 now1 t1 s1 with ⟨h, _⟩ | ⟨h, _⟩
    · rw [h]
    · rw [h] at hfirst
      simp at hfirst
  rw [hst] at hmid hsecond ⊢
  have hinv := run_of_noneGranted mid ⟨s1, t1⟩ hmid
  simp only at hinv
  have hl : (run ⟨s1, t1⟩ mid).live t2 := by
    unfold MasterServer.live
    rw [hinv.1]
    exact hlive
  have hreq : req2.PreviousToken ≠ 0
      ∧ (run ⟨s1, t1⟩ mid).presents req2.PreviousLockTime req2.PreviousToken := by
    rcases lease_cases (run ⟨s1, t1⟩ mid) req2 t2 now2 r2 with ⟨_, h⟩ | ⟨h, _⟩
    · exact h hl
    · rw [h] at hsecond
      simp at hsecond
  obtain ⟨htok, htime, hsec⟩ := hreq
  have hs : (run ⟨s1, t1⟩ mid).adminAccessSecret = s1 := by
    rcases hinv.2 with e | e
    · exact e
    · exact absurd (hsec.trans e) htok
  exact ⟨rfl, MasterServer.ext hs hinv.1, htime.trans hinv.1, hsec.trans hs, htok⟩

/-- Witness of C1: a lease is granted at 1 s with the secret 7; a request
without token at 2 s is refused, the pair is verified, a release with a wrong
token does nothing; the request granted at 5 s presents `(1 s, 7)`. -/
theorem lease_mutual_exclusion_witness :
    ((run MasterServer.zeroValue []).LeaseAdminToken ⟨0, 0⟩ ⟨1000000000⟩ ⟨1000000000⟩ 7).err = none
      ∧ ((run ((run MasterServer.zeroValue []).LeaseAdminToken ⟨0, 0⟩ ⟨1000000000⟩ ⟨1000000000⟩ 7).ms
            [Call.lease ⟨0, 0⟩ ⟨2000000000⟩ ⟨2000000000⟩ 8, Call.verify ⟨7, 1000000000⟩,
              Call.release ⟨8, 1000000000⟩]).LeaseAdminToken
            ⟨7, 1000000000⟩ ⟨5000000000⟩ ⟨5000000000⟩ 9).err = none
      ∧ (Unix 0 (⟨7, 1000000000⟩ : LeaseAdminTokenRequest).PreviousLockTime = ⟨1000000000⟩
          ∧ (⟨7, 1000000000⟩ : LeaseAdminTokenRequest).PreviousToken = 7) :=
  have h := lease_mutual_exclusion MasterServer.zeroValue [] ⟨0, 0⟩ ⟨1000000000⟩ ⟨1000000000⟩ 7
    [Call.lease ⟨0, 0⟩ ⟨2000000000⟩ ⟨2000000000⟩ 8, Call.verify ⟨7, 1000000000⟩,
      Call.release ⟨8, 1000000000⟩]
    ⟨7, 1000000000⟩ ⟨5000000000⟩ ⟨5000000000⟩ 9
    (by decide) (by decide) (by decide) (by decide)
  ⟨by decide, by decide, h.2.2.1, h.2.2.2.1⟩

/-! ## Release against the design comment, the first lease, and pure reads -/

/-- C11, the code at a failing input: the design comment says a release sets
the last lock time to zero, but after the matching release of the pair
`(1 s, 7)` the stored `adminAccessLockTime` is still 1 s, neither the zero
value of `time.Time` nor the Unix epoch; what the handler clears is
`adminAccessSecret`. -/
theorem release_keeps_lock_time :
    (⟨7, ⟨1000000000⟩⟩ : MasterServer).presents 1000000000 7
      ∧ ((⟨7, ⟨1000000000⟩⟩ : MasterServer).ReleaseAdminToken ⟨7, 1000000000⟩).ms
          = ⟨0, ⟨1000000000⟩⟩
      ∧ ((⟨7, ⟨1000000000⟩⟩ : MasterServer).ReleaseAdminToken ⟨7, 1000000000⟩).ms.adminAccessLockTime
          ≠ Time.zeroValue
      ∧ ((⟨7, ⟨1000000000⟩⟩ : MasterServer).ReleaseAdminToken ⟨7, 1000000000⟩).ms.adminAccessLockTime
          ≠ Unix 0 0 := by
  decide

/-- C12: from the state in which both fields hold their zero value, a
`LeaseAdminToken` whose freshness test reads a clock instant that fits `int64`
nanoseconds since the Unix epoch is granted for every request, and in that
state `VerifyAdminToken` answers `IsValid = false` for every request (the field
`LockTime` being an `int64`). -/
theorem first_lease_granted (req : LeaseAdminTokenRequest) (now now2 : Time) (r : Int)
    (hnow : isInt64 now.ns) :
    (MasterServer.zeroValue.LeaseAdminToken req now now2 r).err = none
      ∧ (MasterServer.zeroValue.LeaseAdminToken req now now2 r).ms = ⟨r, now2⟩
      ∧ ∀ vreq : VerifyAdminTokenRequest, isInt64 vreq.LockTime →
          (MasterServer.zeroValue.VerifyAdminToken vreq).resp.IsValid = false := by
  have hdead : ¬ MasterServer.zeroValue.live now := by
    unfold isInt64 at hnow
    simp only [MasterServer.live, MasterServer.zeroValue, Time.zeroValue, LockDuration, Second]
    omega
  rw [lease_of_expired MasterServer.zeroValue req now now2 r hdead]
  refine ⟨rfl, rfl, fun vreq hfit => ?_⟩
  rw [verify_eq]
  have hno : ¬ MasterServer.zeroValue.presents vreq.LockTime vreq.Token := by
    rintro ⟨ht, _⟩
    unfold isInt64 at hfit
    simp only [Unix, MasterServer.zeroValue, Time.zeroValue, Time.mk.injEq] at ht
    omega
  simp [hno]

/-- Witness of C12: the first request, without token, at the Unix epoch. -/
theorem first_lease_granted_witness :
    isInt64 (⟨0⟩ : Time).ns
      ∧ (MasterServer.zeroValue.LeaseAdminToken ⟨0, 0⟩ ⟨0⟩ ⟨0⟩ 7).err = none
      ∧ (MasterServer.zeroValue.LeaseAdminToken ⟨0, 0⟩ ⟨0⟩ ⟨0⟩ 7).ms = ⟨7, ⟨0⟩⟩
      ∧ (MasterServer.zeroValue.VerifyAdminToken ⟨0, 0⟩).resp.IsValid = false :=
  have h := first_lease_granted ⟨0, 0⟩ ⟨0⟩ ⟨0⟩ 7 (by decide)
  ⟨by decide, h.1, h.2.1, h.2.2 ⟨0, 0⟩ (by decide)⟩

/-- C14: for every state and request `VerifyAdminToken` returns no error and the
state after the call, the stored pair `(adminAccessLockTime, adminAccessSecret)`,
is the state before it. -/
theorem verify_pure_read (ms : MasterServer) (req : VerifyAdminTokenRequest) :
    (ms.VerifyAdminToken req).err = none
      ∧ (ms.VerifyAdminToken req).ms = ms
      ∧ (ms.VerifyAdminToken req).ms.adminAccessLockTime = ms.adminAccessLockTime
      ∧ (ms.VerifyAdminToken req).ms.adminAccessSecret = ms.adminAccessSecret := by
  rw [verify_eq]
  exact ⟨rfl, rfl, rfl, rfl⟩

/-! ## The scenario of the specification -/

/-- C13: with `LockDuration` ten seconds and the server started in its zero
state, the generator drawing `secretA` (not zero), then `secretA2`, then
`secretA3`: at 0 s the request `(0, 0)` is granted and returns `(secretA, 0)`;
at 5 s the request `(0, 0)` is refused with "already locked" and changes
nothing; at 5 s the request `(secretA, 0)` is granted and returns
`(secretA2, 5e9)`; at 16 s the request `(0, 0)` is granted. Each line starts in
the state the line before it ends in. -/
theorem scenario_ten_seconds (secretA secretA2 secretA3 r : Int) (hA : secretA ≠ 0) :
    LockDuration = 10 * 1000000000
      ∧ MasterServer.zeroValue.LeaseAdminToken ⟨0, 0⟩ ⟨0⟩ ⟨0⟩ secretA
          = ⟨⟨secretA, ⟨0⟩⟩, ⟨secretA, 0⟩, none⟩
      ∧ (⟨secretA, ⟨0⟩⟩ : MasterServer).LeaseAdminToken ⟨0, 0⟩ ⟨5000000000⟩ ⟨5000000000⟩ r
          = ⟨⟨secretA, ⟨0⟩⟩, ⟨0, 0⟩, some alreadyLocked⟩
      ∧ (⟨secretA, ⟨0⟩⟩ : MasterServer).LeaseAdminToken ⟨secretA, 0⟩ ⟨5000000000⟩ ⟨5000000000⟩
            secretA2
          = ⟨⟨secretA2, ⟨5000000000⟩⟩, ⟨secretA2, 5000000000⟩, none⟩
      ∧ (⟨secretA2, ⟨5000000000⟩⟩ : MasterServer).LeaseAdminToken ⟨0, 0⟩ ⟨16000000000⟩
            ⟨16000000000⟩ secretA3
          = ⟨⟨secretA3, ⟨16000000000⟩⟩, ⟨secretA3, 16000000000⟩, none⟩ := by
  have hlive : (⟨secretA, ⟨0⟩⟩ : MasterServer).live ⟨5000000000⟩ := by
    simp [MasterServer.live, LockDuration, Second]
  have hdead : ¬ (⟨secretA2, ⟨5000000000⟩⟩ : MasterServer).live ⟨16000000000⟩ := by
    simp [MasterServer.live, LockDuration, Second]
  have hpair : (⟨secretA, ⟨0⟩⟩ : MasterServer).presents 0 secretA := by
    simp [MasterServer.presents, Unix]
  refine ⟨by decide, ?_, ?_, ?_, ?_⟩
  · rw [lease_of_expired MasterServer.zeroValue ⟨0, 0⟩ ⟨0⟩ ⟨0⟩ secretA (by decide)]
    rfl
  · rw [lease_of_refuse ⟨secretA, ⟨0⟩⟩ ⟨0, 0⟩ ⟨5000000000⟩ ⟨5000000000⟩ r hlive
      (fun h => h.1 rfl)]
  · rw [lease_of_renew ⟨secretA, ⟨0⟩⟩ ⟨secretA, 0⟩ ⟨5000000000⟩ ⟨5000000000⟩ secretA2
      hlive hA hpair]
    rfl
  · rw [lease_of_expired ⟨secretA2, ⟨5000000000⟩⟩ ⟨0, 0⟩ ⟨16000000000⟩ ⟨16000000000⟩ secretA3
      hdead]
    rfl

/-- Witness of C13: the scenario with the draws 7, 8 and 9. -/
theorem scenario_ten_seconds_witness :
    (7 : Int) ≠ 0
      ∧ (MasterServer.zeroValue.LeaseAdminToken ⟨0, 0⟩ ⟨0⟩ ⟨0⟩ 7).resp = ⟨7, 0⟩
      ∧ ((⟨7, ⟨0⟩⟩ : MasterServer).LeaseAdminToken ⟨0, 0⟩ ⟨5000000000⟩ ⟨5000000000⟩ 8).err
          = some alreadyLocked
      ∧ ((⟨7, ⟨0⟩⟩ : MasterServer).LeaseAdminToken ⟨7, 0⟩ ⟨5000000000⟩ ⟨5000000000⟩ 8).resp
          = ⟨8, 5000000000⟩
      ∧ ((⟨8, ⟨5000000000⟩⟩ : MasterServer).LeaseAdminToken ⟨0, 0⟩ ⟨16000000000⟩
            ⟨16000000000⟩ 9).err = none :=
  have h := scenario_ten_seconds 7 8 9 8 (by decide)
  ⟨by decide, by rw [h.2.1], by rw [h.2.2.1], by rw [h.2.2.2.1], by rw [h.2.2.2.2]⟩

/-! ## Issue, then verify; release, then verify -/

/-- C16, as amended: after a `LeaseAdminToken` that returns without error and
whose clock reading inside `generateToken` fits `int64` nanoseconds since the
Unix epoch, `VerifyAdminToken` called with the returned `Token` and with
`LockTime` the returned `LockTsNs` answers `IsValid = true`, and
`time.Unix(0, ts.UnixNano())` of the stored issuance time `ts` is the instant
`ts` itself. -/
theorem issue_then_verify (ms : MasterServer) (req : LeaseAdminTokenRequest)
    (now now2 : Time) (r : Int) (hfit : isInt64 now2.ns)
    (hok : (ms.LeaseAdminToken req now now2 r).err = none) :
    ((ms.LeaseAdminToken req now now2 r).ms.VerifyAdminToken
        ⟨(ms.LeaseAdminToken req now now2 r).resp.Token,
          (ms.LeaseAdminToken req now now2 r).resp.LockTsNs⟩).resp.IsValid = true
      ∧ Unix 0 (ms.LeaseAdminToken req now now2 r).ms.adminAccessLockTime.UnixNano
          = (ms.LeaseAdminToken req now now2 r).ms.adminAccessLockTime
      ∧ (ms.LeaseAdminToken req now now2 r).ms.adminAccessLockTime.Equal
          (Unix 0 (ms.LeaseAdminToken req now now2 r).ms.adminAccessLockTime.UnixNano) = true := by
  have hw : Unix 0 now2.UnixNano = now2 := by
    have h := wrapInt64_of_isInt64 now2.ns hfit
    cases now2 with
    | mk n =>
      simp only [Time.UnixNano] at h ⊢
      simp [Unix, h]
  rcases lease_cases ms req now now2 r with ⟨h, _⟩ | ⟨h, _⟩
  · rw [h, verify_eq]
    simp [MasterServer.presents, hw, Time.Equal]
  · rw [h] at hok
    simp at hok

/-- Witness of C16 as amended: a first lease taken at 1 s with the draw 7. -/
theorem issue_then_verify_witness :
    isInt64 (⟨1000000000⟩ : Time).ns
      ∧ (MasterServer.zeroValue.LeaseAdminToken ⟨0, 0⟩ ⟨1000000000⟩ ⟨1000000000⟩ 7).err = none
      ∧ ((MasterServer.zeroValue.LeaseAdminToken ⟨0, 0⟩ ⟨1000000000⟩ ⟨1000000000⟩ 7).ms.VerifyAdminToken
            ⟨(MasterServer.zeroValue.LeaseAdminToken ⟨0, 0⟩ ⟨1000000000⟩ ⟨1000000000⟩ 7).resp.Token,
              (MasterServer.zeroValue.LeaseAdminToken ⟨0, 0⟩ ⟨1000000000⟩ ⟨1000000000⟩ 7).resp.LockTsNs⟩
          ).resp.IsValid = true :=
  ⟨by decide, by decide,
    (issue_then_verify MasterServer.zeroValue ⟨0, 0⟩ ⟨1000000000⟩ ⟨1000000000⟩ 7
      (by decide) (by decide)).1⟩

/-- Counterexample to C16 as stated: the clock reads `2^63` nanoseconds after
the Unix epoch (April 11, 2262), one past the largest `int64`. The lease is
granted and stores that instant, `UnixNano` wraps and the response carries
`LockTsNs = -2^63`; `VerifyAdminToken` with the returned pair answers
`IsValid = false`, and `time.Unix(0, ts.UnixNano())` is not the stored instant. -/
theorem issue_then_verify_past_int64 :
    (MasterServer.zeroValue.LeaseAdminToken ⟨0, 0⟩ ⟨9223372036854775808⟩
        ⟨9223372036854775808⟩ 7).err = none
      ∧ (MasterServer.zeroValue.LeaseAdminToken ⟨0, 0⟩ ⟨9223372036854775808⟩
          ⟨9223372036854775808⟩ 7).ms = ⟨7, ⟨9223372036854775808⟩⟩
      ∧ (MasterServer.zeroValue.LeaseAdminToken ⟨0, 0⟩ ⟨9223372036854775808⟩
          ⟨9223372036854775808⟩ 7).resp = ⟨7, -9223372036854775808⟩
      ∧ ((⟨7, ⟨9223372036854775808⟩⟩ : MasterServer).VerifyAdminToken
          ⟨7, -9223372036854775808⟩).resp.IsValid = false
      ∧ Unix 0 (⟨9223372036854775808⟩ : Time).UnixNano ≠ ⟨9223372036854775808⟩ := by
  decide

/-- C17: after a `ReleaseAdminToken` that presents the stored pair, with lock
time `t0`, `VerifyAdminToken` with `Token = 0` and `LockTime = t0` answers
`IsValid = true`; through every sequence of calls in which no lease is granted
the state stays `(t0, 0)` and the answer stays `true`. The handler reads no
clock, so this holds at any time, also past `t0 + LockDuration`; a granted
lease that draws a non-zero secret ends it. -/
theorem cleared_pair_verifies (ms : MasterServer) (rel : ReleaseAdminTokenRequest)
    (hrel : ms.presents rel.PreviousLockTime rel.PreviousToken)
    (cs : List Call) (hcs : noneGranted (ms.ReleaseAdminToken rel).ms cs = true) :
    ((ms.ReleaseAdminToken rel).ms.VerifyAdminToken ⟨0, rel.PreviousLockTime⟩).resp.IsValid = true
      ∧ run (ms.ReleaseAdminToken rel).ms cs = ⟨0, ms.adminAccessLockTime⟩
      ∧ ((run (ms.ReleaseAdminToken rel).ms cs).VerifyAdminToken
            ⟨0, rel.PreviousLockTime⟩).resp.IsValid = true
      ∧ ∀ (req : LeaseAdminTokenRequest) (now now2 : Time) (r : Int),
          ((run (ms.ReleaseAdminToken rel).ms cs).LeaseAdminToken req now now2 r).err = none →
          r ≠ 0 →
          (((run (ms.ReleaseAdminToken rel).ms cs).LeaseAdminToken req now now2 r).ms.VerifyAdminToken
              ⟨0, rel.PreviousLockTime⟩).resp.IsValid = false := by
  have h1 : (ms.ReleaseAdminToken rel).ms = ⟨0, ms.adminAccessLockTime⟩ := by
    rw [release_eq]
    simp [hrel]
  rw [h1] at hcs ⊢
  have hinv := run_of_noneGranted cs ⟨0, ms.adminAccessLockTime⟩ hcs
  simp only [or_self] at hinv
  have h2 : run ⟨0, ms.adminAccessLockTime⟩ cs = ⟨0, ms.adminAccessLockTime⟩ :=
    MasterServer.ext hinv.2 hinv.1
  have hv : ((⟨0, ms.adminAccessLockTime⟩ : MasterServer).VerifyAdminToken
      ⟨0, rel.PreviousLockTime⟩).resp.IsValid = true := by
    rw [verify_eq]
    simp [MasterServer.presents, hrel.1]
  rw [h2]
  refine ⟨hv, rfl, hv, fun req now now2 r hok hr => ?_⟩
  rcases lease_cases ⟨0, ms.adminAccessLockTime⟩ req now now2 r with ⟨h, _⟩ | ⟨h, _⟩
  · rw [h, verify_eq]
    simp [MasterServer.presents]
    intro _ h0
    exact hr h0.symm
  · rw [h] at hok
    simp at hok

/-- Witness of C17: the pair `(1 s, 7)` is released; a lease request at 2 s is
refused, the cleared pair is released again and the old pair is checked; the
pair `(1 s, 0)` still verifies. -/
theorem cleared_pair_verifies_witness :
    (⟨7, ⟨1000000000⟩⟩ : MasterServer).presents 1000000000 7
      ∧ (((⟨7, ⟨1000000000⟩⟩ : MasterServer).ReleaseAdminToken ⟨7, 1000000000⟩).ms.VerifyAdminToken
            ⟨0, 1000000000⟩).resp.IsValid = true
      ∧ ((run ((⟨7, ⟨1000000000⟩⟩ : MasterServer).ReleaseAdminToken ⟨7, 1000000000⟩).ms
            [Call.lease ⟨0, 0⟩ ⟨2000000000⟩ ⟨2000000000⟩ 8, Call.release ⟨0, 1000000000⟩,
              Call.verify ⟨7, 1000000000⟩]).VerifyAdminToken
            ⟨0, 1000000000⟩).resp.IsValid = true :=
  have h := cleared_pair_verifies ⟨7, ⟨1000000000⟩⟩ ⟨7, 1000000000⟩ (by decide)
    [Call.lease ⟨0, 0⟩ ⟨2000000000⟩ ⟨2000000000⟩ 8, Call.release ⟨0, 1000000000⟩,
      Call.verify ⟨7, 1000000000⟩] (by decide)
  ⟨by decide, h.1, h.2.2.1⟩

end WeedServer
